import Mathlib

/-!
Verification of the WebScraper repository: a shallow embedding of the
fetch-and-cache layer (`scraper/web_scraper.py`) and of the record
extraction and aggregation pipeline (`main.py`), together with theorems
settling the specified behavioural claims.

Modelling conventions:
* Python `str.strip()` and `str.lower()` are modelled by `pyStrip` and
  `pyLower` over the underlying character list (ASCII case folding).
* A BeautifulSoup document is modelled as the list of its candidate
  listing nodes; `select_one` results are `Option` fields of `DealNode`.
* The network is an explicit oracle `Net : String → Except String Doc`,
  and wall-clock time an explicit rational parameter (Python `time()`
  returns a float).
* Raising an exception is modelled by returning `Except.error`.
-/

/-- Model of Python `str.strip()`: drop whitespace from both ends. -/
def pyStrip (s : String) : String :=
  String.mk (((s.data.dropWhile Char.isWhitespace).reverse.dropWhile Char.isWhitespace).reverse)

/-- ASCII lower-casing of one character, as Python `str.lower()` does on ASCII. -/
def pyCharLower (c : Char) : Char :=
  if 65 ≤ c.toNat ∧ c.toNat ≤ 90 then Char.ofNat (c.toNat + 32) else c

/-- Model of Python `str.lower()` (ASCII fragment). -/
def pyLower (s : String) : String :=
  String.mk (s.data.map pyCharLower)

/-- The `a.topic_title_link` anchor node: its text and its optional
`href` attribute (`node["href"]` raises `KeyError` when it is absent). -/
structure TitleNode where
  text : String
  href : Option String
deriving DecidableEq

/-- One candidate listing node of a parsed page.  The selector results used
by `main.py` are modelled as optional fields: `none` means the sub-node is
missing from the markup.  `isTopicRow` says whether the node matches
`ul.topics li.row.topic`, and `sticky` whether it carries the `sticky` class. -/
structure DealNode where
  isTopicRow : Bool
  sticky : Bool
  retailer : Option String
  topictitle : Option String
  titleLink : Option TitleNode
  votes : Option String
  username : Option String
  category : Option String
  timestamp : Option String
  replies : Option String
  views : Option String
deriving DecidableEq

/-- A parsed document, reduced to its candidate listing nodes. -/
abbrev Doc := List DealNode

/-- The network oracle: maps a URL to a parsed body or a transport error. -/
abbrev Net := String → Except String Doc

/-- The mutable state of a `WebScraper` instance: base URL, the fixed list
of configured paths, the cache `soups` (insertion-ordered mapping from path
to document) and `last_fetch_time` (0 at construction). -/
structure ScraperState where
  baseUrl : String
  paths : List String
  soups : List (String × Doc)
  lastFetchTime : ℚ
deriving DecidableEq

/-- The message of the `FetchError` raised by `fetch_all`. -/
def fetchErrorMsg (url cause : String) : String :=
  "Failed to fetch " ++ url ++ ": " ++ cause

/-- One observable call to `WebScraper.fetch_all`: the returned value or
raised error, the scraper state after the call, and the list of URLs
actually requested over the network, in request order. -/
structure FetchOutcome where
  result : Except String (List (String × Doc))
  state : ScraperState
  requests : List String

/-- The fetch loop of `fetch_all`: walk the configured paths in order,
requesting `base ++ path` for each; on success extend the (freshly cleared)
cache, on the first failure stop and report the partially built cache. -/
def refreshLoop (net : Net) (base : String) :
    List String → List (String × Doc) → List String →
    Except (String × List (String × Doc)) (List (String × Doc)) × List String
  | [], acc, reqs => (Except.ok acc, reqs)
  | p :: rest, acc, reqs =>
    match net (base ++ p) with
    | Except.ok doc => refreshLoop net base rest (acc ++ [(p, doc)]) (reqs ++ [base ++ p])
    | Except.error cause =>
      (Except.error (fetchErrorMsg (base ++ p) cause, acc), reqs ++ [base ++ p])

/-- Model of `WebScraper.fetch_all`: read the clock, refresh when the cache
is empty or at least 120 seconds have elapsed since the last successful
fetch, otherwise return the cached mapping with no network activity.  The
refresh clears the cache first; `last_fetch_time` is assigned only after
the whole loop succeeds. -/
def fetch_all (net : Net) (now : ℚ) (s : ScraperState) : FetchOutcome :=
  if s.soups.isEmpty = true ∨ 120 ≤ now - s.lastFetchTime then
    match refreshLoop net s.baseUrl s.paths [] [] with
    | (Except.ok newSoups, reqs) =>
      ⟨Except.ok newSoups, ⟨s.baseUrl, s.paths, newSoups, now⟩, reqs⟩
    | (Except.error (msg, got), reqs) =>
      ⟨Except.error msg, ⟨s.baseUrl, s.paths, got, s.lastFetchTime⟩, reqs⟩
  else
    ⟨Except.ok s.soups, s, []⟩

/-- The documents obtained for the longest prefix of `paths` on which the
network oracle succeeds, paired with their paths in configured order. -/
def successPrefixDocs (net : Net) (base : String) : List String → List (String × Doc)
  | [] => []
  | p :: rest =>
    match net (base ++ p) with
    | Except.ok doc => (p, doc) :: successPrefixDocs net base rest
    | Except.error _ => []

theorem refreshLoop_error_eq (net : Net) (base : String) :
    ∀ (paths : List String) (acc : List (String × Doc)) (reqs : List String)
      (msg : String) (got : List (String × Doc)) (reqs2 : List String),
      refreshLoop net base paths acc reqs = (Except.error (msg, got), reqs2) →
      got = acc ++ successPrefixDocs net base paths := by
  intro paths
  induction paths with
  | nil =>
    intro acc reqs msg got reqs2 h
    simp [refreshLoop] at h
  | cons p rest ih =>
    intro acc reqs msg got reqs2 h
    simp only [refreshLoop] at h
    cases hnet : net (base ++ p) with
    | ok doc =>
      rw [hnet] at h
      have := ih (acc ++ [(p, doc)]) (reqs ++ [base ++ p]) msg got reqs2 h
      simp [successPrefixDocs, hnet, this]
    | error cause =>
      rw [hnet] at h
      simp only [Prod.mk.injEq, Except.error.injEq, Prod.mk.injEq] at h
      simp [successPrefixDocs, hnet, h.1.2.symm]

theorem refreshLoop_ok_eq (net : Net) (base : String) :
    ∀ (paths : List String) (acc : List (String × Doc)) (reqs : List String)
      (soups : List (String × Doc)) (reqs2 : List String),
      refreshLoop net base paths acc reqs = (Except.ok soups, reqs2) →
      soups = acc ++ successPrefixDocs net base paths ∧
      reqs2 = reqs ++ paths.map (fun p => base ++ p) ∧
      ∀ p ∈ paths, ∃ doc, net (base ++ p) = Except.ok doc := by
  intro paths
  induction paths with
  | nil =>
    intro acc reqs soups reqs2 h
    simp [refreshLoop] at h
    simp [successPrefixDocs, h.1.symm, h.2.symm]
  | cons p rest ih =>
    intro acc reqs soups reqs2 h
    simp only [refreshLoop] at h
    cases hnet : net (base ++ p) with
    | ok doc =>
      rw [hnet] at h
      obtain ⟨h1, h2, h3⟩ := ih (acc ++ [(p, doc)]) (reqs ++ [base ++ p]) soups reqs2 h
      refine ⟨?_, ?_, ?_⟩
      · simp [successPrefixDocs, hnet, h1]
      · simp [h2]
      · intro q hq
        rcases List.mem_cons.mp hq with hq | hq
        · exact ⟨doc, by rw [hq]; exact hnet⟩
        · exact h3 q hq
    | error cause =>
      rw [hnet] at h
      simp at h

theorem refreshLoop_of_all_ok (net : Net) (base : String) :
    ∀ (paths : List String) (acc : List (String × Doc)) (reqs : List String),
      (∀ p ∈ paths, ∃ doc, net (base ++ p) = Except.ok doc) →
      refreshLoop net base paths acc reqs =
        (Except.ok (acc ++ successPrefixDocs net base paths),
         reqs ++ paths.map (fun p => base ++ p)) := by
  intro paths
  induction paths with
  | nil => intro acc reqs _; simp [refreshLoop, successPrefixDocs]
  | cons p rest ih =>
    intro acc reqs hall
    obtain ⟨doc, hdoc⟩ := hall p (List.mem_cons_self p rest)
    have hrest : ∀ q ∈ rest, ∃ d, net (base ++ q) = Except.ok d :=
      fun q hq => hall q (List.mem_cons_of_mem p hq)
    simp only [refreshLoop, hdoc]
    rw [ih (acc ++ [(p, doc)]) (reqs ++ [base ++ p]) hrest]
    simp [successPrefixDocs, hdoc]

/-- Lazy scan for the closing bracket: the characters matched by `(.*?)\]`
starting right after an opening bracket.  Mirrors Python `re` semantics:
`.` does not match a newline, and the lazy group stops at the first `]`. -/
def scanClose : List Char → Option (List Char)
  | [] => none
  | c :: rest =>
    if c = ']' then some []
    else if c = '\n' then none
    else
      match scanClose rest with
      | some s => some (c :: s)
      | none => none

/-- Model of `re.search(r"\[(.*?)\]", s)`: try each start position from the
left; at an opening bracket take the lazily-matched group, otherwise (or if
no closing bracket is reachable) move one character right. -/
def reSearchBracket : List Char → Option (List Char)
  | [] => none
  | c :: rest =>
    if c = '[' then
      match scanClose rest with
      | some nm => some nm
      | none => reSearchBracket rest
    else reSearchBracket rest

/-- Model of `extract_store` in `main.py`: dedicated retailer node first,
then the bracket token inside the generic title text, else the marker. -/
def extract_store (d : DealNode) : String :=
  match d.retailer with
  | some r => pyStrip r
  | none =>
    match d.topictitle with
    | some t =>
      match reSearchBracket (pyStrip t).data with
      | some nm => String.mk nm
      | none => "n/a"
    | none => "n/a"

/-- The extracted representation of one listing, as assembled by
`display_latest_deals` (all fields raw trimmed text or the marker). -/
structure DealRecord where
  store : String
  title : String
  url : String
  votes : String
  username : String
  category : String
  timestamp : String
  replies : String
  views : String
deriving DecidableEq

/-- The `x.text.strip() if x else "n/a"` idiom used for every plain field. -/
def orNA : Option String → String
  | some s => pyStrip s
  | none => "n/a"

/-- Model of the per-deal extraction in `display_latest_deals`.  When the
title anchor is present, `title["href"]` is evaluated unconditionally, so a
title node without an `href` attribute raises `KeyError` (modelled as
`Except.error`); otherwise every missing sub-node degrades to `"n/a"`. -/
def extract_deal (base : String) (d : DealNode) : Except String DealRecord :=
  match d.titleLink with
  | some t =>
    match t.href with
    | some h =>
      Except.ok ⟨extract_store d, pyStrip t.text, base ++ pyStrip h,
        orNA d.votes, orNA d.username, orNA d.category, orNA d.timestamp,
        orNA d.replies, orNA d.views⟩
    | none => Except.error "KeyError: href"
  | none =>
    Except.ok ⟨extract_store d, "n/a", "n/a",
      orNA d.votes, orNA d.username, orNA d.category, orNA d.timestamp,
      orNA d.replies, orNA d.views⟩

/-- Increment the count of key `k` in an insertion-ordered association
list, appending a fresh entry when absent — the behaviour of
`m[k] = m.get(k, 0) + 1` on a Python dict. -/
def bumpKey : List (String × Nat) → String → List (String × Nat)
  | [], k => [(k, 1)]
  | (k0, c) :: rest, k =>
    if k0 = k then (k0, c + 1) :: rest else (k0, c) :: bumpKey rest k

/-- Count lookup in the association list (0 when the key is absent). -/
def lookupCount : List (String × Nat) → String → Nat
  | [], _ => 0
  | (k0, c) :: rest, k => if k0 = k then c else lookupCount rest k

/-- One step of the loop in `get_categories`: a deal is tallied under the
trimmed text of its category sub-node, and skipped when that sub-node is
missing. -/
def catStep (m : List (String × Nat)) (d : DealNode) : List (String × Nat) :=
  match d.category with
  | some cat => bumpKey m (pyStrip cat)
  | none => m

/-- Model of `get_categories` in `main.py`. -/
def get_categories (deals : List DealNode) : List (String × Nat) :=
  deals.foldl catStep []

/-- The comparison used by `sorted(..., key=lambda item: item[1],
reverse=True)`: descending by count, stable on ties. -/
def byCountDesc (a b : String × Nat) : Bool := b.2 ≤ a.2

/-- Model of the tally computed by `analyze_deals_by_category`: the
category counts sorted descending by count. -/
def analyze_deals_by_category (deals : List DealNode) : List (String × Nat) :=
  (get_categories deals).mergeSort byCountDesc

/-- One step of the store-count loop in `find_top_stores`: deals whose
resolved store is the marker are skipped. -/
def storeStep (m : List (String × Nat)) (d : DealNode) : List (String × Nat) :=
  if extract_store d = "n/a" then m else bumpKey m (extract_store d)

/-- The store counts built by `find_top_stores`. -/
def store_counts (deals : List DealNode) : List (String × Nat) :=
  deals.foldl storeStep []

/-- Model of the ranking computed by `find_top_stores`: store counts
sorted descending by count. -/
def find_top_stores (deals : List DealNode) : List (String × Nat) :=
  (store_counts deals).mergeSort byCountDesc

/-- The selector `ul.topics li.row.topic:not(.sticky)` on one document. -/
def selectDeals (doc : Doc) : List DealNode :=
  doc.filter (fun d => d.isTopicRow && !d.sticky)

/-- The deal-gathering loop shared verbatim by all four views:
`for soup in soups.values(): deals += soup.select(...)`. -/
def gatherDeals (soups : List (String × Doc)) : List DealNode :=
  soups.foldl (fun acc s => acc ++ selectDeals s.2) []

/-- The deal list consumed by `display_latest_deals`. -/
def dealsForDisplay (soups : List (String × Doc)) : List DealNode := gatherDeals soups

/-- The deal list consumed by `analyze_deals_by_category`. -/
def dealsForAnalyze (soups : List (String × Doc)) : List DealNode := gatherDeals soups

/-- The deal list consumed by `find_top_stores`. -/
def dealsForTopStores (soups : List (String × Doc)) : List DealNode := gatherDeals soups

/-- The deal list consumed by `log_deal_information`. -/
def dealsForLog (soups : List (String × Doc)) : List DealNode := gatherDeals soups

/-- The eligibility test of the export loop in `log_deal_information`:
`title and category and category.text.strip().lower() == user_cat.lower()`. -/
def logEligible (userCat : String) (d : DealNode) : Bool :=
  d.titleLink.isSome &&
    (match d.category with
     | some c => pyLower (pyStrip c) == pyLower userCat
     | none => false)

/-- The subsequence of deals written to the log file for a chosen category. -/
def log_selected (userCat : String) (deals : List DealNode) : List DealNode :=
  deals.filter (logEligible userCat)

/-- A minimal listing node with no sub-fields resolved. -/
def exBareNode : DealNode :=
  ⟨true, false, none, none, none, none, none, none, none, none, none⟩

/-- A one-node document used by the concrete fetch scenarios. -/
def exDocA : Doc := [exBareNode]

/-- A network oracle that succeeds on the first configured page and fails
on every other URL. -/
def exNetFailB : Net := fun u =>
  if u = "https://x/a" then Except.ok exDocA else Except.error "boom"

/-- A freshly constructed scraper with two configured paths. -/
def exStateTwoPaths : ScraperState := ⟨"https://x", ["/a", "/b"], [], 0⟩

/-- A scraper holding a cached document fetched at time 100. -/
def exStateCached : ScraperState := ⟨"https://x", ["/a"], [("/a", exDocA)], 100⟩

/-- Claim C3: `fetch_all` refreshes exactly when the cache is empty or the
elapsed time since the last successful fetch is at least the 120-second
TTL (boundary inclusive); otherwise it performs no network request and
returns the prior document mapping with the state unchanged.  On a fully
successful refresh every configured target is requested, in order. -/
theorem fetch_all_refresh_iff_stale (net : Net) (now : ℚ) (s : ScraperState) :
    (¬(s.soups.isEmpty = true ∨ 120 ≤ now - s.lastFetchTime) →
      fetch_all net now s = ⟨Except.ok s.soups, s, []⟩)
    ∧ ((s.soups.isEmpty = true ∨ 120 ≤ now - s.lastFetchTime) →
      (∀ p ∈ s.paths, ∃ doc, net (s.baseUrl ++ p) = Except.ok doc) →
      fetch_all net now s =
        ⟨Except.ok (successPrefixDocs net s.baseUrl s.paths),
         ⟨s.baseUrl, s.paths, successPrefixDocs net s.baseUrl s.paths, now⟩,
         s.paths.map (fun p => s.baseUrl ++ p)⟩) := by
  constructor
  · intro h
    simp only [fetch_all, if_neg h]
  · intro hcond hall
    simp only [fetch_all, if_pos hcond,
      refreshLoop_of_all_ok net s.baseUrl s.paths [] [] hall, List.nil_append]

/-- Claim C3 (witness): with a one-page cache fetched at time 100, a call
at time 150 (elapsed 50 < TTL) makes no request and returns the cached
mapping unchanged, while a call at time 220 (elapsed exactly 120, the
inclusive boundary) refreshes, requesting the configured page. -/
theorem fetch_all_refresh_iff_stale_witness :
    fetch_all exNetFailB 150 exStateCached =
      ⟨Except.ok [("/a", exDocA)], exStateCached, []⟩
    ∧ fetch_all exNetFailB 220 exStateCached =
      ⟨Except.ok (successPrefixDocs exNetFailB "https://x" ["/a"]),
       ⟨"https://x", ["/a"], successPrefixDocs exNetFailB "https://x" ["/a"], 220⟩,
       ["/a"].map (fun p => "https://x" ++ p)⟩ := by
  constructor
  · exact (fetch_all_refresh_iff_stale exNetFailB 150 exStateCached).1
      (by norm_num [exStateCached, List.isEmpty])
  · exact (fetch_all_refresh_iff_stale exNetFailB 220 exStateCached).2
      (by norm_num [exStateCached])
      (by intro p hp; simp [exStateCached] at hp; subst hp; exact ⟨exDocA, rfl⟩)

/-- Claim C4: a call that raises `FetchFailure` leaves `last_fetch_time`
unchanged, and `last_fetch_time` changes only to the time read at the
start of a call whose refresh cycle succeeded for every configured target. -/
theorem fetch_fail_preserves_last_fetch_time (net : Net) (now : ℚ) (s : ScraperState) :
    (∀ msg, (fetch_all net now s).result = Except.error msg →
      (fetch_all net now s).state.lastFetchTime = s.lastFetchTime)
    ∧ ((fetch_all net now s).state.lastFetchTime ≠ s.lastFetchTime →
      (fetch_all net now s).state.lastFetchTime = now
        ∧ (∃ m, (fetch_all net now s).result = Except.ok m)
        ∧ ∀ p ∈ s.paths, ∃ doc, net (s.baseUrl ++ p) = Except.ok doc) := by
  by_cases hc : s.soups.isEmpty = true ∨ 120 ≤ now - s.lastFetchTime
  · rcases hr : refreshLoop net s.baseUrl s.paths [] [] with ⟨res, reqs⟩
    cases res with
    | ok v =>
      have hfa : fetch_all net now s =
          ⟨Except.ok v, ⟨s.baseUrl, s.paths, v, now⟩, reqs⟩ := by
        simp only [fetch_all, if_pos hc, hr]
      rw [hfa]
      constructor
      · intro msg hmsg; simp at hmsg
      · intro _
        refine ⟨rfl, ⟨v, rfl⟩, (refreshLoop_ok_eq net s.baseUrl s.paths [] [] v reqs hr).2.2⟩
    | error pr =>
      rcases pr with ⟨m, got⟩
      have hfa : fetch_all net now s =
          ⟨Except.error m, ⟨s.baseUrl, s.paths, got, s.lastFetchTime⟩, reqs⟩ := by
        simp only [fetch_all, if_pos hc, hr]
      rw [hfa]
      constructor
      · intro msg _; rfl
      · intro hne; exact absurd rfl hne
  · have hfa : fetch_all net now s = ⟨Except.ok s.soups, s, []⟩ := by
      simp only [fetch_all, if_neg hc]
    rw [hfa]
    constructor
    · intro msg hmsg; simp at hmsg
    · intro hne; exact absurd rfl hne

/-- Claim C4 (witness): in the concrete failing refresh (second page
unreachable), `last_fetch_time` keeps its prior value 0. -/
theorem fetch_fail_preserves_last_fetch_time_witness :
    (fetch_all exNetFailB 200 exStateTwoPaths).state.lastFetchTime = 0 :=
  (fetch_fail_preserves_last_fetch_time exNetFailB 200 exStateTwoPaths).1
    (fetchErrorMsg "https://x/b" "boom") rfl

/-- Claim C1 (counterexample): with two configured pages, an empty cache
and a network that succeeds on the first page but fails on the second,
`fetch_all` raises `FetchFailure` and leaves the cache holding exactly the
first page's entry — neither empty, nor one entry per configured target,
nor the pre-call cache contents. -/
theorem fetch_fail_partial_cache_cex :
    (fetch_all exNetFailB 200 exStateTwoPaths).result =
        Except.error (fetchErrorMsg "https://x/b" "boom")
    ∧ (fetch_all exNetFailB 200 exStateTwoPaths).state.soups = [("/a", exDocA)]
    ∧ (fetch_all exNetFailB 200 exStateTwoPaths).state.soups ≠ []
    ∧ (fetch_all exNetFailB 200 exStateTwoPaths).state.soups.length ≠
        exStateTwoPaths.paths.length
    ∧ (fetch_all exNetFailB 200 exStateTwoPaths).state.soups ≠ exStateTwoPaths.soups := by
  refine ⟨rfl, rfl, by decide, by decide, by decide⟩

/-- Claim C1 (amended): after `fetch_all` raises `FetchFailure`, the cache
holds exactly one entry, in configured order, for each target in the
longest prefix of the configured targets whose fetches succeeded — so it
may be partially populated, and it is not the pre-call cache. -/
theorem fetch_fail_cache_is_success_prefix (net : Net) (now : ℚ) (s : ScraperState)
    (msg : String) (h : (fetch_all net now s).result = Except.error msg) :
    (fetch_all net now s).state.soups = successPrefixDocs net s.baseUrl s.paths := by
  by_cases hc : s.soups.isEmpty = true ∨ 120 ≤ now - s.lastFetchTime
  · rcases hr : refreshLoop net s.baseUrl s.paths [] [] with ⟨res, reqs⟩
    cases res with
    | ok v =>
      have hfa : fetch_all net now s =
          ⟨Except.ok v, ⟨s.baseUrl, s.paths, v, now⟩, reqs⟩ := by
        simp only [fetch_all, if_pos hc, hr]
      rw [hfa] at h
      simp at h
    | error pr =>
      rcases pr with ⟨m, got⟩
      have hfa : fetch_all net now s =
          ⟨Except.error m, ⟨s.baseUrl, s.paths, got, s.lastFetchTime⟩, reqs⟩ := by
        simp only [fetch_all, if_pos hc, hr]
      rw [hfa]
      simpa using refreshLoop_error_eq net s.baseUrl s.paths [] [] m got reqs hr
  · have hfa : fetch_all net now s = ⟨Except.ok s.soups, s, []⟩ := by
      simp only [fetch_all, if_neg hc]
    rw [hfa] at h
    simp at h

/-- Claim C1 (witness): in the concrete failing refresh the resulting
cache is exactly the success-prefix mapping, i.e. the first page's entry. -/
theorem fetch_fail_cache_is_success_prefix_witness :
    (fetch_all exNetFailB 200 exStateTwoPaths).state.soups =
      successPrefixDocs exNetFailB "https://x" ["/a", "/b"] :=
  fetch_fail_cache_is_success_prefix exNetFailB 200 exStateTwoPaths
    (fetchErrorMsg "https://x/b" "boom") rfl

/-- A listing node whose title anchor exists but carries no `href`
attribute; all other sub-nodes are missing. -/
def exTitleNoHref : DealNode :=
  ⟨true, false, none, none, some ⟨"Great deal", none⟩, none, none, none, none, none, none⟩

/-- Claim C2 (counterexample): extraction of a node whose only present
sub-field is a title anchor without an `href` attribute raises (`KeyError`
from `title["href"]`) instead of degrading the URL to the absent-marker. -/
theorem extract_missing_href_raises_cex :
    extract_deal "https://x" exTitleNoHref = Except.error "KeyError: href"
    ∧ exTitleNoHref.titleLink.isSome = true := ⟨rfl, rfl⟩

/-- Claim C2 (amended): extraction never raises on account of a missing
sub-NODE — every missing sub-node degrades to the marker `"n/a"`, and the
URL is `origin ++ trimmed(href)` when the title anchor has an `href` and
`"n/a"` when the anchor is missing; but when the title anchor exists
without an `href` attribute, extraction raises `KeyError`. -/
theorem extract_deal_degrades_missing_subnodes (base : String) (d : DealNode) :
    ((d.titleLink = none ∨ ∃ t, d.titleLink = some t ∧ t.href ≠ none) →
      ∃ r, extract_deal base d = Except.ok r
        ∧ r.store = extract_store d
        ∧ (d.titleLink = none → r.title = "n/a" ∧ r.url = "n/a")
        ∧ (∀ t h, d.titleLink = some t → t.href = some h →
            r.title = pyStrip t.text ∧ r.url = base ++ pyStrip h)
        ∧ (d.votes = none → r.votes = "n/a")
        ∧ (d.username = none → r.username = "n/a")
        ∧ (d.category = none → r.category = "n/a")
        ∧ (d.timestamp = none → r.timestamp = "n/a")
        ∧ (d.replies = none → r.replies = "n/a")
        ∧ (d.views = none → r.views = "n/a"))
    ∧ (∀ t, d.titleLink = some t → t.href = none →
        extract_deal base d = Except.error "KeyError: href") := by
  constructor
  · intro hok
    cases htl : d.titleLink with
    | none =>
      exact ⟨⟨extract_store d, "n/a", "n/a", orNA d.votes, orNA d.username,
        orNA d.category, orNA d.timestamp, orNA d.replies, orNA d.views⟩,
        by simp [extract_deal, htl], rfl, fun _ => ⟨rfl, rfl⟩,
        fun t h ht => absurd ht (by simp),
        fun hv => by simp [orNA, hv], fun hv => by simp [orNA, hv],
        fun hv => by simp [orNA, hv], fun hv => by simp [orNA, hv],
        fun hv => by simp [orNA, hv], fun hv => by simp [orNA, hv]⟩
    | some t =>
      have hh : ∃ h, t.href = some h := by
        rcases hok with hnone | ⟨t2, ht2, hhref⟩
        · rw [htl] at hnone; exact absurd hnone (by simp)
        · rw [htl] at ht2
          injection ht2 with ht2
          subst ht2
          cases hcase : t.href with
          | none => exact absurd hcase hhref
          | some h => exact ⟨h, rfl⟩
      obtain ⟨h, hhref⟩ := hh
      refine ⟨⟨extract_store d, pyStrip t.text, base ++ pyStrip h, orNA d.votes,
        orNA d.username, orNA d.category, orNA d.timestamp, orNA d.replies, orNA d.views⟩,
        by simp [extract_deal, htl, hhref], rfl,
        fun hnone => absurd hnone (by simp), ?_,
        fun hv => by simp [orNA, hv], fun hv => by simp [orNA, hv],
        fun hv => by simp [orNA, hv], fun hv => by simp [orNA, hv],
        fun hv => by simp [orNA, hv], fun hv => by simp [orNA, hv]⟩
      intro t2 h2 ht2 hh2
      injection ht2 with ht2
      subst ht2
      rw [hhref] at hh2
      injection hh2 with hh2
      subst hh2
      exact ⟨rfl, rfl⟩
  · intro t ht hh
    simp [extract_deal, ht, hh]

/-- Claim C2 (witness): the fully bare node extracts to an all-marker
record without raising, and the href-less title node raises `KeyError`. -/
theorem extract_deal_degrades_missing_subnodes_witness :
    (∃ r, extract_deal "https://x" exBareNode = Except.ok r
      ∧ r.store = extract_store exBareNode
      ∧ (exBareNode.titleLink = none → r.title = "n/a" ∧ r.url = "n/a")
      ∧ (∀ t h, exBareNode.titleLink = some t → t.href = some h →
          r.title = pyStrip t.text ∧ r.url = "https://x" ++ pyStrip h)
      ∧ (exBareNode.votes = none → r.votes = "n/a")
      ∧ (exBareNode.username = none → r.username = "n/a")
      ∧ (exBareNode.category = none → r.category = "n/a")
      ∧ (exBareNode.timestamp = none → r.timestamp = "n/a")
      ∧ (exBareNode.replies = none → r.replies = "n/a")
      ∧ (exBareNode.views = none → r.views = "n/a"))
    ∧ extract_deal "https://x" exTitleNoHref = Except.error "KeyError: href" :=
  ⟨(extract_deal_degrades_missing_subnodes "https://x" exBareNode).1 (Or.inl rfl),
   (extract_deal_degrades_missing_subnodes "https://x" exTitleNoHref).2
     ⟨"Great deal", none⟩ rfl rfl⟩

theorem scanClose_prefix_close : ∀ (l nm : List Char),
    scanClose l = some nm → nm ++ [']'] <+: l := by
  intro l
  induction l with
  | nil => intro nm h; simp [scanClose] at h
  | cons c rest ih =>
    intro nm h
    by_cases hc : c = ']'
    · simp only [scanClose, if_pos hc] at h
      injection h with h
      subst h
      exact ⟨rest, by simp [hc]⟩
    · by_cases hn : c = '\n'
      · simp only [scanClose, if_neg hc, if_pos hn] at h
        simp at h
      · simp only [scanClose, if_neg hc, if_neg hn] at h
        cases hsc : scanClose rest with
        | some s =>
          rw [hsc] at h
          injection h with h
          subst h
          obtain ⟨t, ht⟩ := ih s hsc
          refine ⟨t, ?_⟩
          simpa using ht
        | none => rw [hsc] at h; simp at h

theorem reSearchBracket_finds_infix : ∀ (l nm : List Char),
    reSearchBracket l = some nm → '[' :: (nm ++ [']']) <:+: l := by
  intro l
  induction l with
  | nil => intro nm h; simp [reSearchBracket] at h
  | cons c rest ih =>
    intro nm h
    by_cases hc : c = '['
    · simp only [reSearchBracket, if_pos hc] at h
      cases hsc : scanClose rest with
      | some s =>
        rw [hsc] at h
        injection h with h
        subst h
        obtain ⟨t, ht⟩ := scanClose_prefix_close rest s hsc
        refine ⟨[], t, ?_⟩
        rw [hc]
        simpa using ht
      | none =>
        rw [hsc] at h
        obtain ⟨s1, t1, hst⟩ := ih nm h
        exact ⟨c :: s1, t1, by simpa using hst⟩
    · simp only [reSearchBracket, if_neg hc] at h
      obtain ⟨s1, t1, hst⟩ := ih nm h
      exact ⟨c :: s1, t1, by simpa using hst⟩

/-- Claim C5: store-name resolution follows the ordered fallback chain —
the trimmed text of a present dedicated retailer node; otherwise the
bracket-delimited token found in the trimmed generic title text (which
then really occurs bracketed in that text); otherwise the marker `"n/a"`. -/
theorem extract_store_fallback_chain (d : DealNode) :
    (∀ r, d.retailer = some r → extract_store d = pyStrip r)
    ∧ (∀ t nm, d.retailer = none → d.topictitle = some t →
        reSearchBracket (pyStrip t).data = some nm →
        extract_store d = String.mk nm ∧ '[' :: (nm ++ [']']) <:+: (pyStrip t).data)
    ∧ (d.retailer = none →
        (∀ t, d.topictitle = some t → reSearchBracket (pyStrip t).data = none) →
        extract_store d = "n/a") := by
  refine ⟨?_, ?_, ?_⟩
  · intro r hr; simp [extract_store, hr]
  · intro t nm hr ht hs
    exact ⟨by simp [extract_store, hr, ht, hs], reSearchBracket_finds_infix _ nm hs⟩
  · intro hr hnone
    cases ht : d.topictitle with
    | none => simp [extract_store, hr, ht]
    | some t => simp [extract_store, hr, ht, hnone t ht]

/-- A node with no retailer field whose generic title text carries a
bracketed store token — the example from the specification. -/
def exAcmeNode : DealNode :=
  ⟨true, false, none, some "[Acme] 50% off widgets", none, none, none, none, none, none, none⟩

/-- A node with a dedicated retailer field (untrimmed text). -/
def exRetailNode : DealNode :=
  ⟨true, false, some " BestBuy ", none, none, none, none, none, none, none, none⟩

/-- Claim C5 (witness): the bracketed title resolves to `"Acme"`, the bare
node resolves to the marker, and a retailer node resolves to its trimmed
text. -/
theorem extract_store_fallback_chain_witness :
    extract_store exAcmeNode = "Acme"
    ∧ extract_store exBareNode = "n/a"
    ∧ extract_store exRetailNode = "BestBuy" :=
  ⟨((extract_store_fallback_chain exAcmeNode).2.1 "[Acme] 50% off widgets"
      "Acme".data rfl rfl (by decide)).1,
   (extract_store_fallback_chain exBareNode).2.2 rfl
     (fun t ht => absurd ht (by simp [exBareNode])),
   (extract_store_fallback_chain exRetailNode).1 " BestBuy " rfl⟩

theorem lookupCount_bumpKey (m : List (String × Nat)) (k0 k : String) :
    lookupCount (bumpKey m k0) k = lookupCount m k + (if k0 = k then 1 else 0) := by
  induction m with
  | nil =>
    by_cases h : k0 = k <;> simp [bumpKey, lookupCount, h]
  | cons kv rest ih =>
    rcases kv with ⟨k1, c⟩
    by_cases h1 : k1 = k0
    · subst h1
      by_cases h2 : k1 = k <;> simp [bumpKey, lookupCount, h2]
    · by_cases h2 : k1 = k
      · subst h2
        have hne : k0 ≠ k1 := fun hh => h1 hh.symm
        simp [bumpKey, lookupCount, h1, hne]
      · simp [bumpKey, lookupCount, h1, h2, ih]

theorem bumpKey_keys (m : List (String × Nat)) (k0 k : String) (c : Nat)
    (h : (k, c) ∈ bumpKey m k0) : k = k0 ∨ ∃ c2, (k, c2) ∈ m := by
  induction m with
  | nil =>
    simp [bumpKey] at h
    exact Or.inl h.1
  | cons kv rest ih =>
    rcases kv with ⟨k1, c1⟩
    by_cases h1 : k1 = k0
    · simp only [bumpKey, if_pos h1] at h
      rcases List.mem_cons.mp h with hh | hh
      · have hk : k = k1 := by injection hh with hk hc
        left
        rw [hk, h1]
      · exact Or.inr ⟨c, List.mem_cons_of_mem _ hh⟩
    · simp only [bumpKey, if_neg h1] at h
      rcases List.mem_cons.mp h with hh | hh
      · have hk : k = k1 := by injection hh with hk hc
        exact Or.inr ⟨c1, by rw [hk]; exact List.mem_cons_self _ _⟩
      · rcases ih hh with he | ⟨c2, hc2⟩
        · exact Or.inl he
        · exact Or.inr ⟨c2, List.mem_cons_of_mem _ hc2⟩

theorem foldl_filter_skip {α β : Type} (f : β → α → β) (p : α → Bool)
    (hskip : ∀ m d, p d = false → f m d = m) :
    ∀ (l : List α) (m : β), l.foldl f m = (l.filter p).foldl f m := by
  intro l
  induction l with
  | nil => intro m; rfl
  | cons d rest ih =>
    intro m
    by_cases hd : p d
    · simp [List.filter_cons, hd, ih]
    · have hdf : p d = false := by simpa using hd
      simp [List.filter_cons, hdf, hskip m d hdf, ih]

/-- Does the deal have a category sub-node whose trimmed text is `k`? -/
def catKeyIs (k : String) (d : DealNode) : Bool :=
  match d.category with
  | some c => pyStrip c == k
  | none => false

theorem get_categories_lookup :
    ∀ (deals : List DealNode) (m : List (String × Nat)) (k : String),
    lookupCount (deals.foldl catStep m) k = lookupCount m k + deals.countP (catKeyIs k) := by
  intro deals
  induction deals with
  | nil => intro m k; simp
  | cons d rest ih =>
    intro m k
    simp only [List.foldl_cons]
    rw [ih (catStep m d) k]
    cases hc : d.category with
    | none =>
      simp [catStep, hc, List.countP_cons, catKeyIs]
    | some cat =>
      simp only [catStep, hc, lookupCount_bumpKey, List.countP_cons, catKeyIs]
      by_cases hk : pyStrip cat = k
      all_goals simp [hk]
      all_goals omega

theorem store_counts_key_mem :
    ∀ (deals : List DealNode) (m : List (String × Nat)),
    (∀ k c, (k, c) ∈ m → k ≠ "n/a") →
    ∀ k c, (k, c) ∈ deals.foldl storeStep m → k ≠ "n/a" := by
  intro deals
  induction deals with
  | nil => intro m hm k c h; exact hm k c h
  | cons d rest ih =>
    intro m hm k c h
    simp only [List.foldl_cons] at h
    refine ih (storeStep m d) ?_ k c h
    intro k2 c2 hmem
    unfold storeStep at hmem
    by_cases hs : extract_store d = "n/a"
    · rw [if_pos hs] at hmem
      exact hm k2 c2 hmem
    · rw [if_neg hs] at hmem
      rcases bumpKey_keys m (extract_store d) k2 c2 hmem with heq | ⟨c3, hc3⟩
      · rw [heq]; exact hs
      · exact hm k2 c3 hc3

/-- A node whose category sub-node text is literally the marker string. -/
def exNaCatNode : DealNode :=
  ⟨true, false, none, none, none, none, none, some "n/a", none, none, none⟩

/-- Claim C6 (counterexample): a deal whose category sub-node has trimmed
text literally `"n/a"` is tallied under the key `"n/a"`, so the
absent-marker string does appear as a tally key. -/
theorem category_tally_na_key_cex :
    exNaCatNode.category = some "n/a"
    ∧ get_categories [exNaCatNode] = [("n/a", 1)] := ⟨rfl, rfl⟩

/-- Claim C6 (amended): the category tally counts occurrences grouped by
the trimmed text of the category sub-node, silently omits exactly the
records with no category sub-node (a present sub-node is always keyed by
its trimmed text, even when that text is `"n/a"`), and the listed entries
are sorted descending by count. -/
theorem category_tally_omits_missing_sorted (deals : List DealNode) :
    get_categories deals = get_categories (deals.filter (fun d => d.category.isSome))
    ∧ (∀ k, lookupCount (get_categories deals) k = deals.countP (catKeyIs k))
    ∧ (analyze_deals_by_category deals).Pairwise (fun a b => b.2 ≤ a.2)
    ∧ (analyze_deals_by_category deals).Perm (get_categories deals) := by
  refine ⟨?_, ?_, ?_, ?_⟩
  · exact foldl_filter_skip catStep (fun d => d.category.isSome)
      (fun m d hd => by
        cases hc : d.category with
        | none => simp [catStep, hc]
        | some c => simp [hc] at hd) deals []
  · intro k
    simpa [get_categories, lookupCount] using get_categories_lookup deals [] k
  · have htrans : ∀ a b c : String × Nat,
        byCountDesc a b = true → byCountDesc b c = true → byCountDesc a c = true := by
      intro a b c hab hbc
      simp only [byCountDesc, decide_eq_true_eq] at *
      omega
    have htot : ∀ a b : String × Nat, (byCountDesc a b || byCountDesc b a) = true := by
      intro a b
      simp only [byCountDesc, Bool.or_eq_true, decide_eq_true_eq]
      omega
    have hp := List.sorted_mergeSort htrans htot (get_categories deals)
    exact hp.imp (fun hab => by simpa [byCountDesc] using hab)
  · exact List.mergeSort_perm (get_categories deals) byCountDesc

/-- Claim C10: a category sub-node that exists but trims to the empty
string is tallied under the empty-string key, while a deal with no
category sub-node at all contributes nothing to the tally. -/
theorem category_tally_empty_string_key (deals : List DealNode) (d : DealNode) :
    (∀ w, d.category = some w → pyStrip w = "" →
      lookupCount (get_categories (deals ++ [d])) "" =
        lookupCount (get_categories deals) "" + 1)
    ∧ (d.category = none → get_categories (deals ++ [d]) = get_categories deals) := by
  constructor
  · intro w hw hstrip
    unfold get_categories
    rw [List.foldl_append]
    simp [catStep, hw, lookupCount_bumpKey, hstrip]
  · intro hnone
    unfold get_categories
    rw [List.foldl_append]
    simp [catStep, hnone]

/-- A node whose category sub-node text is whitespace only. -/
def exWsCatNode : DealNode :=
  ⟨true, false, none, none, none, none, none, some "   ", none, none, none⟩

/-- Claim C10 (witness): appending a whitespace-category node bumps the
empty-string key, while appending a node with no category sub-node leaves
the tally untouched. -/
theorem category_tally_empty_string_key_witness :
    lookupCount (get_categories ([exNaCatNode] ++ [exWsCatNode])) "" =
      lookupCount (get_categories [exNaCatNode]) "" + 1
    ∧ get_categories ([exNaCatNode] ++ [exBareNode]) = get_categories [exNaCatNode] :=
  ⟨(category_tally_empty_string_key [exNaCatNode] exWsCatNode).1 "   " rfl rfl,
   (category_tally_empty_string_key [exNaCatNode] exBareNode).2 rfl⟩

/-- A node whose dedicated retailer field trims to the literal `"n/a"`. -/
def exNaRetailNode : DealNode :=
  ⟨true, false, some " n/a ", none, none, none, none, none, none, none, none⟩

/-- Claim C9: the store tally never carries the key `"n/a"`; any deal
whose resolved store is `"n/a"` — including one whose dedicated retailer
field trims to exactly `"n/a"` — contributes to no store's count. -/
theorem store_tally_excludes_na (deals : List DealNode) :
    store_counts deals =
        store_counts (deals.filter (fun d => !(extract_store d == "n/a")))
    ∧ (∀ k c, (k, c) ∈ store_counts deals → k ≠ "n/a")
    ∧ (∀ k c, (k, c) ∈ find_top_stores deals → k ≠ "n/a")
    ∧ (∀ d2 r, DealNode.retailer d2 = some r → pyStrip r = "n/a" →
        extract_store d2 = "n/a")
    ∧ (∀ ds2 d2, extract_store d2 = "n/a" →
        store_counts (ds2 ++ [d2]) = store_counts ds2) := by
  refine ⟨?_, ?_, ?_, ?_, ?_⟩
  · have hskip : ∀ m d2, (!(extract_store d2 == "n/a")) = false → storeStep m d2 = m := by
      intro m d2 hd
      have hd2 : extract_store d2 = "n/a" := by simpa using hd
      simp [storeStep, hd2]
    have := foldl_filter_skip storeStep (fun d2 => !(extract_store d2 == "n/a")) hskip deals []
    simpa [store_counts] using this
  · exact store_counts_key_mem deals [] (by simp)
  · intro k c h
    exact store_counts_key_mem deals [] (by simp) k c
      ((List.mergeSort_perm (store_counts deals) byCountDesc).subset h)
  · intro d2 r hr hstrip
    simp [extract_store, hr, hstrip]
  · intro ds2 d2 hna
    unfold store_counts
    rw [List.foldl_append]
    simp [storeStep, hna]

/-- Claim C9 (witness): the retailer text `" n/a "` resolves to the marker
store, and appending such a deal leaves the store counts unchanged. -/
theorem store_tally_excludes_na_witness :
    extract_store exNaRetailNode = "n/a"
    ∧ store_counts ([exRetailNode] ++ [exNaRetailNode]) = store_counts [exRetailNode] :=
  ⟨(store_tally_excludes_na []).2.2.2.1 exNaRetailNode " n/a " rfl rfl,
   (store_tally_excludes_na []).2.2.2.2 [exRetailNode] exNaRetailNode
     ((store_tally_excludes_na []).2.2.2.1 exNaRetailNode " n/a " rfl rfl)⟩

theorem gatherDeals_mem :
    ∀ (soups : List (String × Doc)) (acc : List DealNode) (d : DealNode),
    d ∈ soups.foldl (fun acc2 s => acc2 ++ selectDeals s.2) acc →
    d ∈ acc ∨ (d.sticky = false ∧ d.isTopicRow = true) := by
  intro soups
  induction soups with
  | nil => intro acc d h; exact Or.inl h
  | cons s rest ih =>
    intro acc d h
    simp only [List.foldl_cons] at h
    rcases ih (acc ++ selectDeals s.2) d h with hmem | hgood
    · rcases List.mem_append.mp hmem with h1 | h2
      · exact Or.inl h1
      · right
        have hb := (List.mem_filter.mp h2).2
        simp only [Bool.and_eq_true, Bool.not_eq_true'] at hb
        exact ⟨hb.2, hb.1⟩
    · exact Or.inr hgood

/-- Claim C8: every deal list consumed by any of the four views — latest
list, category breakdown, top stores, log export — contains only
non-sticky top-level listing nodes; sticky/pinned nodes are excluded. -/
theorem views_exclude_sticky (soups : List (String × Doc)) (d : DealNode) :
    (d ∈ dealsForDisplay soups → d.sticky = false ∧ d.isTopicRow = true)
    ∧ (d ∈ dealsForAnalyze soups → d.sticky = false ∧ d.isTopicRow = true)
    ∧ (d ∈ dealsForTopStores soups → d.sticky = false ∧ d.isTopicRow = true)
    ∧ (d ∈ dealsForLog soups → d.sticky = false ∧ d.isTopicRow = true) := by
  have hg : d ∈ gatherDeals soups → d.sticky = false ∧ d.isTopicRow = true := by
    intro h
    rcases gatherDeals_mem soups [] d h with h0 | hgood
    · simp at h0
    · exact hgood
  exact ⟨hg, hg, hg, hg⟩

/-- A sticky announcement node. -/
def exStickyNode : DealNode :=
  ⟨true, true, none, none, none, none, none, none, none, none, none⟩

/-- Claim C8 (witness): in a document holding a sticky node and a plain
node, the plain node survives the sticky-exclusion selection of the
latest-deals view and is indeed non-sticky. -/
theorem views_exclude_sticky_witness :
    exBareNode.sticky = false ∧ exBareNode.isTopicRow = true :=
  (views_exclude_sticky [("/a", [exStickyNode, exBareNode])] exBareNode).1 (by decide)

/-- A deal node with category text `"Tech"` (title anchor present). -/
def exTechNode : DealNode :=
  ⟨true, false, none, none, some ⟨"T1", some "/t1"⟩, none, none, some "Tech",
    none, none, none⟩

/-- A deal node with category text `"tech"` (title anchor present). -/
def exTechLowerNode : DealNode :=
  ⟨true, false, none, none, some ⟨"T2", some "/t2"⟩, none, none, some "tech",
    none, none, none⟩

/-- A deal node with category text `"Food"` (title anchor present). -/
def exFoodNode : DealNode :=
  ⟨true, false, none, none, some ⟨"T3", some "/t3"⟩, none, none, some "Food",
    none, none, none⟩

/-- Claim C7: the records selected for log export are exactly the ordered
subsequence of deals that have a title anchor and a category sub-node whose
trimmed text case-insensitively equals the target label; concretely,
filtering `"Tech"`, `"tech"`, `"Food"` on `"TECH"` keeps the first two in
original order. -/
theorem log_selected_characterization (label : String) (deals : List DealNode) :
    (log_selected label deals).Sublist deals
    ∧ (∀ d, d ∈ log_selected label deals ↔
        d ∈ deals ∧ d.titleLink.isSome = true
          ∧ ∃ c, d.category = some c ∧ pyLower (pyStrip c) = pyLower label)
    ∧ log_selected "TECH" [exTechNode, exTechLowerNode, exFoodNode] =
        [exTechNode, exTechLowerNode] := by
  refine ⟨List.filter_sublist deals, ?_, by decide⟩
  intro d
  rw [log_selected, List.mem_filter]
  constructor
  · rintro ⟨hmem, helig⟩
    simp only [logEligible, Bool.and_eq_true] at helig
    refine ⟨hmem, helig.1, ?_⟩
    cases hc : d.category with
    | none =>
      rw [hc] at helig
      simp at helig
    | some c =>
      have h2 := helig.2
      rw [hc] at h2
      simp only [beq_iff_eq] at h2
      exact ⟨c, rfl, h2⟩
  · rintro ⟨hmem, hsome, c, hc, hlow⟩
    refine ⟨hmem, ?_⟩
    simp [logEligible, hsome, hc, hlow]
